import Mathlib

/-!
Verification of the per-block DXT encoders of
`src/branches/2.0/src/nvtt/QuickCompressDXT.cpp`.

The C++ float arithmetic is embedded exactly over `ℚ` (all the constants and
operations used by this file are exact in the model; divergence between `ℚ`
and IEEE floats is noted where it matters).  Machine integers (`uint`,
`uint8`, `uint16`) are embedded as `ℕ`; none of the integer computations in
the translated code can overflow their C types, except where noted.
A whole 4x4 input block is a function `Fin 16 → Color32` in raster order.

Helpers that live in headers that are not part of the repository snapshot
(`nvmath`, `nvimage/ColorBlock`, `nvimage/BlockDXT`, `SingleColorLookup`)
are modelled from the specification; each such definition carries a
`Modelled from the spec:` doc comment.
-/

/-- 32-bit RGBA color with four 8-bit channels (nvmath `Color32`). -/
structure Color32 where
  r : Fin 256
  g : Fin 256
  b : Fin 256
  a : Fin 256
deriving DecidableEq

/-- A 4x4 pixel tile in raster order (nvimage `ColorBlock`); `rgba.color(i)`
is embedded as function application. -/
abbrev ColorBlock := Fin 16 → Color32

/-- Three-component float vector (nvmath `Vector3`), embedded over `ℚ`. -/
structure Vec3 where
  x : ℚ
  y : ℚ
  z : ℚ
deriving DecidableEq

instance : Add Vec3 := ⟨fun a b => ⟨a.x + b.x, a.y + b.y, a.z + b.z⟩⟩

instance : Sub Vec3 := ⟨fun a b => ⟨a.x - b.x, a.y - b.y, a.z - b.z⟩⟩

/-- `Vec3 * scalar` (componentwise). -/
def Vec3.scale (v : Vec3) (s : ℚ) : Vec3 := ⟨v.x * s, v.y * s, v.z * s⟩

/-- Modelled from the spec: nvmath componentwise `max` on `Vec3`
(header not under src/). -/
def vmax (a b : Vec3) : Vec3 := ⟨max a.x b.x, max a.y b.y, max a.z b.z⟩

/-- Modelled from the spec: nvmath componentwise `min` on `Vec3`. -/
def vmin (a b : Vec3) : Vec3 := ⟨min a.x b.x, min a.y b.y, min a.z b.z⟩

/-- Modelled from the spec: nvmath scalar `clamp(f, lo, hi)`
(header not under src/). -/
def qclamp (f lo hi : ℚ) : ℚ := min (max f lo) hi

/-- Modelled from the spec: nvmath componentwise `clamp` on `Vec3`. -/
def vclamp (v : Vec3) (lo hi : ℚ) : Vec3 :=
  ⟨qclamp v.x lo hi, qclamp v.y lo hi, qclamp v.z lo hi⟩

/-- The C cast `uint(f)` (truncation toward zero); every use in this file has
a nonnegative argument, where truncation is `⌊f⌋`. -/
def toUint (f : ℚ) : ℕ := (⌊f⌋).toNat

/-- The 16-bit 5:6:5 endpoint color (nvmath `Color16`).  `u` is the packed
word; the bitfields are kept separate and `u` is derived, which agrees with
the C union for in-range fields (r,b < 32, g < 64 — true at every
construction site in the translated code). -/
structure Color16 where
  r : ℕ
  g : ℕ
  b : ℕ
deriving DecidableEq

/-- The packed 16-bit word of a `Color16`: r in bits 11..15, g in 5..10,
b in 0..4. -/
def Color16.u (c : Color16) : ℕ := c.r * 2048 + c.g * 32 + c.b

/-- The C constructor `Color16(uint16 u)`: view a 16-bit word as bitfields. -/
def Color16.ofU (w : ℕ) : Color16 := ⟨w / 2048 % 32, w / 32 % 64, w % 32⟩

/-- A DXT1 color block (nvimage `BlockDXT1`): two packed endpoints and a
32-bit index word, 2 bits per sample. -/
structure BlockDXT1 where
  col0 : Color16
  col1 : Color16
  indices : ℕ
deriving DecidableEq

/-- A DXT5 alpha block (nvimage `AlphaBlockDXT5`): two 8-bit endpoints and
16 3-bit palette indices.  The bitfield/u64 layout is represented with the
index field kept as a function; `setIndex`/`index` become function update
and application. -/
structure AlphaBlockDXT5 where
  alpha0 : ℕ
  alpha1 : ℕ
  index : Fin 16 → ℕ
deriving DecidableEq

/-- `extractColorBlockRGB` (QuickCompressDXT.cpp line 38): all 16 samples as
(r,g,b) vectors. -/
def extractColorBlockRGB (rgba : ColorBlock) : Fin 16 → Vec3 :=
  fun i => ⟨(rgba i).r.val, (rgba i).g.val, (rgba i).b.val⟩

/-- `extractColorBlockRGBA` (line 47): the samples with `a > 127`, in raster
order; the returned list's length is the C `num`, and folds over the list
match the C loops `for (i < num)` over the filled prefix. -/
def extractColorBlockRGBA (rgba : ColorBlock) : List Vec3 :=
  (List.finRange 16).filterMap (fun i =>
    if 127 < (rgba i).a.val then
      some ⟨(rgba i).r.val, (rgba i).g.val, (rgba i).b.val⟩
    else none)

/-- `findMinMaxColorsBox` (line 65): componentwise bounding box of the
samples, starting from max = (0,0,0), min = (255,255,255). -/
def findMinMaxColorsBox (samples : List Vec3) : Vec3 × Vec3 :=
  samples.foldl (fun mm v => (vmax mm.1 v, vmin mm.2 v))
    (⟨0, 0, 0⟩, ⟨255, 255, 255⟩)

/-- `selectDiagonal` (line 78): covariance-based corner re-pairing of the
bounding box. -/
def selectDiagonal (samples : List Vec3) (maxColor minColor : Vec3) :
    Vec3 × Vec3 :=
  let center := (maxColor + minColor).scale (1/2)
  let cov := samples.foldl (fun (c : ℚ × ℚ) v =>
    let t := v - center
    (c.1 + t.x * t.z, c.2 + t.y * t.z)) (0, 0)
  let px := if cov.1 < 0 then (minColor.x, maxColor.x) else (maxColor.x, minColor.x)
  let py := if cov.2 < 0 then (minColor.y, maxColor.y) else (maxColor.y, minColor.y)
  (⟨px.1, py.1, maxColor.z⟩, ⟨px.2, py.2, minColor.z⟩)

/-- `insetBBox` (line 105): shrink the box by 1/16 of its extent minus a
fixed epsilon, clamped to [0,255]. -/
def insetBBox (maxColor minColor : Vec3) : Vec3 × Vec3 :=
  let e : ℚ := (8/255) / 16
  let inset : Vec3 :=
    ⟨(maxColor.x - minColor.x) / 16 - e,
     (maxColor.y - minColor.y) / 16 - e,
     (maxColor.z - minColor.z) / 16 - e⟩
  (vclamp (maxColor - inset) 0 255, vclamp (minColor + inset) 0 255)

/-- 5-bit to 8-bit expansion by bit replication: `(v << 3) | (v >> 2)`. -/
def expand5 (v : ℕ) : ℕ := (v <<< 3) ||| (v >>> 2)

/-- 6-bit to 8-bit expansion by bit replication: `(v << 2) | (v >> 4)`. -/
def expand6 (v : ℕ) : ℕ := (v <<< 2) ||| (v >>> 4)

/-- `roundAndExpand` (line 112): round each channel to 5/6/5 bits (scale,
clamp, add 0.5, truncate), pack into a 16-bit word, and replace the working
color with the bit-replicated 8-bit expansion of the packed fields. -/
def roundAndExpand (v : Vec3) : ℕ × Vec3 :=
  let r := toUint (qclamp (v.x * (31/255)) 0 31 + 1/2)
  let g := toUint (qclamp (v.y * (63/255)) 0 63 + 1/2)
  let b := toUint (qclamp (v.z * (31/255)) 0 31 + 1/2)
  let w := (r <<< 11) ||| (g <<< 5) ||| b
  (w, ⟨expand5 r, expand6 g, expand5 b⟩)

/-- `colorDistance` (line 128): squared euclidean distance. -/
def colorDistance (c0 c1 : Vec3) : ℚ :=
  (c0.x - c1.x) * (c0.x - c1.x) + (c0.y - c1.y) * (c0.y - c1.y) +
    (c0.z - c1.z) * (c0.z - c1.z)

/-- Modelled from the spec: nvmath `lerp(p0, p1, t) = p0*(1-t) + p1*t`
(header not under src/; over `ℚ` any algebraically equal form coincides). -/
def lerpV (p0 p1 : Vec3) (t : ℚ) : Vec3 :=
  ⟨p0.x * (1 - t) + t * p1.x, p0.y * (1 - t) + t * p1.y, p0.z * (1 - t) + t * p1.z⟩

/-- C `bool` to `uint` conversion. -/
def b2n (b : Bool) : ℕ := if b then 1 else 0

/-- `computeIndices4` (line 133): branchless nearest-of-4 assignment, 2 bits
per sample, ORed into a 32-bit word. -/
def computeIndices4 (block : Fin 16 → Vec3) (maxColor minColor : Vec3) : ℕ :=
  let palette0 := maxColor
  let palette1 := minColor
  let palette2 := lerpV palette0 palette1 (1/3)
  let palette3 := lerpV palette0 palette1 (2/3)
  (List.finRange 16).foldl (fun indices i =>
    let d0 := colorDistance palette0 (block i)
    let d1 := colorDistance palette1 (block i)
    let d2 := colorDistance palette2 (block i)
    let d3 := colorDistance palette3 (block i)
    let b0 := b2n (decide (d0 > d3))
    let b1 := b2n (decide (d1 > d2))
    let b2 := b2n (decide (d0 > d2))
    let b3 := b2n (decide (d1 > d3))
    let b4 := b2n (decide (d2 > d3))
    let x0 := b1 &&& b2
    let x1 := b0 &&& b3
    let x2 := b0 &&& b4
    indices ||| ((x2 ||| ((x0 ||| x1) <<< 1)) <<< (2 * i.val))) 0

/-- `computeIndices3` (line 165): nearest-of-3 assignment with the
punch-through rule: alpha below 128 forces index 3. -/
def computeIndices3 (rgba : ColorBlock) (maxColor minColor : Vec3) : ℕ :=
  let palette0 := minColor
  let palette1 := maxColor
  let palette2 := (palette0 + palette1).scale (1/2)
  (List.finRange 16).foldl (fun indices i =>
    let c := rgba i
    let color : Vec3 := ⟨c.r.val, c.g.val, c.b.val⟩
    let d0 := colorDistance palette0 color
    let d1 := colorDistance palette1 color
    let d2 := colorDistance palette2 color
    let index : ℕ :=
      if c.a.val < 128 then 3
      else if d0 < d1 ∧ d0 < d2 then 0
      else if d1 < d2 then 1
      else 2
    indices ||| (index <<< (2 * i.val))) 0

/-- Modelled from the spec: nvmath `equal(f0, f1)` — epsilon comparison with
`NV_EPSILON = 0.0001` (header not under src/); the spec calls this the
"numerically zero" test. -/
def equalF (f0 f1 : ℚ) : Bool := decide (|f0 - f1| ≤ 1/10000)

/-- The per-sample regression weights of `optimizeEndPoints4` (lines
205-209): `beta = bits&1`, promoted to `(1+beta)/3` when `bits&2` is set;
`alpha = 1 - beta`. -/
def beta4 (bits : ℕ) : ℚ :=
  let beta0 : ℚ := (bits &&& 1 : ℕ)
  if bits &&& 2 ≠ 0 then (1 + beta0) / 3 else beta0

/-- The regression accumulators of `optimizeEndPoints4` (lines 197-216):
(alpha2_sum, beta2_sum, alphabeta_sum, alphax_sum, betax_sum). -/
def lsqSums4 (block : Fin 16 → Vec3) (indices : ℕ) :
    ℚ × ℚ × ℚ × Vec3 × Vec3 :=
  (List.finRange 16).foldl (fun s i =>
    let bits := indices >>> (2 * i.val)
    let beta := beta4 bits
    let alpha := 1 - beta
    (s.1 + alpha * alpha, s.2.1 + beta * beta, s.2.2.1 + alpha * beta,
     s.2.2.2.1 + (block i).scale alpha, s.2.2.2.2 + (block i).scale beta))
    (0, 0, 0, ⟨0, 0, 0⟩, ⟨0, 0, 0⟩)

/-- The 2x2 normal-equation determinant of `optimizeEndPoints4` (line 218):
`alpha2_sum * beta2_sum - alphabeta_sum * alphabeta_sum`. -/
def optDenom4 (block : Fin 16 → Vec3) (indices : ℕ) : ℚ :=
  let s := lsqSums4 block indices
  s.1 * s.2.1 - s.2.2.1 * s.2.2.1

/-- `optimizeEndPoints4` (line 195): least-squares endpoint refinement for
the 4-color palette; returns the block unchanged when the determinant is
numerically zero, otherwise requantizes the solved endpoints, restores the
ordering invariant and recomputes the indices. -/
def optimizeEndPoints4 (block : Fin 16 → Vec3) (dxtBlock : BlockDXT1) :
    BlockDXT1 :=
  let s := lsqSums4 block dxtBlock.indices
  let alpha2_sum := s.1
  let beta2_sum := s.2.1
  let alphabeta_sum := s.2.2.1
  let alphax_sum := s.2.2.2.1
  let betax_sum := s.2.2.2.2
  let denom := alpha2_sum * beta2_sum - alphabeta_sum * alphabeta_sum
  if equalF denom 0 then dxtBlock
  else
    let factor := 1 / denom
    let a := vclamp (((alphax_sum.scale beta2_sum) -
      (betax_sum.scale alphabeta_sum)).scale factor) 0 255
    let b := vclamp (((betax_sum.scale alpha2_sum) -
      (alphax_sum.scale alphabeta_sum)).scale factor) 0 255
    let re0 := roundAndExpand a
    let re1 := roundAndExpand b
    let fin4 :=
      if re0.1 < re1.1 then (re1.1, re0.1, re1.2, re0.2)
      else (re0.1, re1.1, re0.2, re1.2)
    ⟨Color16.ofU fin4.1, Color16.ofU fin4.2.1,
     computeIndices4 block fin4.2.2.1 fin4.2.2.2⟩

/-- Modelled from the spec: `SingleColorLookup.h` tables `OMatch5`/`OMatch6`
are external data ("given, not derived"); the uniform-color encoder is
parametrized by them.  Row `v` holds the two packed quantized candidates
`(row[0], row[1])` for channel value `v`. -/
abbrev OMatchTable := Fin 256 → ℕ × ℕ

/-- `compressDXT1(Color32, BlockDXT1*)` (line 510): uniform-color fast path;
look up per-channel endpoint pairs, use the all-2s index pattern, and on a
packed-order violation swap the endpoint words and complement every index
bit.  (The C swap exchanges the 16-bit union words; with the 5/6-bit table
entries this is exactly the field swap written here.) -/
def compressDXT1Single (o5 o6 : OMatchTable) (c : Color32) : BlockDXT1 :=
  let col0 : Color16 := ⟨(o5 c.r).1, (o6 c.g).1, (o5 c.b).1⟩
  let col1 : Color16 := ⟨(o5 c.r).2, (o6 c.g).2, (o5 c.b).2⟩
  if col0.u < col1.u then ⟨col1, col0, 0xaaaaaaaa ^^^ 0x55555555⟩
  else ⟨col0, col1, 0xaaaaaaaa⟩

/-- `compressDXT1(ColorBlock, BlockDXT1*)` (line 527): the 4-color encoder:
bounding box, diagonal selection, inset, quantization with order
normalization, index assignment, then one least-squares refinement. -/
def compressDXT1Block (rgba : ColorBlock) : BlockDXT1 :=
  let block := extractColorBlockRGB rgba
  let mm := findMinMaxColorsBox ((List.finRange 16).map block)
  let mm2 := selectDiagonal ((List.finRange 16).map block) mm.1 mm.2
  let mm3 := insetBBox mm2.1 mm2.2
  let re0 := roundAndExpand mm3.1
  let re1 := roundAndExpand mm3.2
  let fin4 :=
    if re0.1 < re1.1 then (re1.1, re0.1, re1.2, re0.2)
    else (re0.1, re1.1, re0.2, re1.2)
  optimizeEndPoints4 block
    ⟨Color16.ofU fin4.1, Color16.ofU fin4.2.1,
     computeIndices4 block fin4.2.2.1 fin4.2.2.2⟩

/-- Modelled from the spec: `ColorBlock::hasAlpha` (nvimage/ColorBlock.cpp,
not under src/) — whether the tile contains any sub-threshold alpha; the
visibility threshold is "alpha > 127". -/
def hasAlpha (rgba : ColorBlock) : Bool :=
  decide (∃ i : Fin 16, (rgba i).a.val ≤ 127)

/-- `compressDXT1a(Color32, BlockDXT1*)` (line 558): fully transparent single
color becomes zero endpoints and all-transparent indices, otherwise the
uniform-color 4-color path. -/
def compressDXT1aSingle (o5 o6 : OMatchTable) (c : Color32) : BlockDXT1 :=
  if c.a.val = 0 then ⟨Color16.ofU 0, Color16.ofU 0, 0xFFFFFFFF⟩
  else compressDXT1Single o5 o6 c

/-- `compressDXT1a(ColorBlock, BlockDXT1*)` (line 572): opaque blocks use the
4-color encoder; blocks with sub-threshold alpha use the punch-through
3-color encoder, whose endpoints are stored in the reversed (col0 ≤ col1)
order and which is not refined. -/
def compressDXT1aBlock (rgba : ColorBlock) : BlockDXT1 :=
  if hasAlpha rgba = false then compressDXT1Block rgba
  else
    let samples := extractColorBlockRGBA rgba
    let mm := findMinMaxColorsBox samples
    let mm2 := selectDiagonal samples mm.1 mm.2
    let mm3 := insetBBox mm2.1 mm2.2
    let re0 := roundAndExpand mm3.1
    let re1 := roundAndExpand mm3.2
    let fin4 :=
      if re0.1 < re1.1 then (re1.1, re0.1, re1.2, re0.2)
      else (re0.1, re1.1, re0.2, re1.2)
    ⟨Color16.ofU fin4.2.1, Color16.ofU fin4.1,
     computeIndices3 rgba fin4.2.2.1 fin4.2.2.2⟩

/-- `computeGreenError` (line 293): green-channel palette error of a block
whose endpoints have green fields `col0.g`, `col1.g`; the 4-entry green
palette is the two bit-replicated expansions and their thirds mixes, and the
error is the sum over samples of the distance to the nearest entry. -/
def computeGreenError (rgba : ColorBlock) (block : BlockDXT1) : ℕ :=
  let palette0 := expand6 block.col0.g
  let palette1 := expand6 block.col1.g
  let palette2 := (2 * palette0 + palette1) / 3
  let palette3 := (2 * palette1 + palette0) / 3
  (List.finRange 16).foldl (fun totalError i =>
    let green := (rgba i).g.val
    let e0 := ((green : ℤ) - palette0).natAbs
    let e1 := ((green : ℤ) - palette1).natAbs
    let e2 := ((green : ℤ) - palette2).natAbs
    let e3 := ((green : ℤ) - palette3).natAbs
    totalError + min (min (min e0 e1) e2) e3) 0

/-- `computeGreenIndices` (line 320): branchless nearest-of-4 assignment on
the green channel only. -/
def computeGreenIndices (rgba : ColorBlock) (palette : Fin 4 → ℕ) : ℕ :=
  (List.finRange 16).foldl (fun indices i =>
    let color := (rgba i).g.val
    let d0 := ((palette 0 : ℤ) - color).natAbs
    let d1 := ((palette 1 : ℤ) - color).natAbs
    let d2 := ((palette 2 : ℤ) - color).natAbs
    let d3 := ((palette 3 : ℤ) - color).natAbs
    let b0 := b2n (decide (d0 > d3))
    let b1 := b2n (decide (d1 > d2))
    let b2 := b2n (decide (d0 > d2))
    let b3 := b2n (decide (d1 > d3))
    let b4 := b2n (decide (d2 > d3))
    let x0 := b1 &&& b2
    let x1 := b0 &&& b3
    let x2 := b0 &&& b4
    indices ||| ((x2 ||| ((x0 ||| x1) <<< 1)) <<< (2 * i.val))) 0

/-- Modelled from the spec: the green channel of
`BlockDXT1::evaluatePalette` (nvimage/BlockDXT.cpp, not under src/) — the
expanded endpoints and their 1/3, 2/3 interpolants (same palette rule the
in-repository `computeGreenError` uses). -/
def evaluatePaletteG (block : BlockDXT1) : Fin 4 → ℕ := fun k =>
  let p0 := expand6 block.col0.g
  let p1 := expand6 block.col1.g
  if k.val = 0 then p0
  else if k.val = 1 then p1
  else if k.val = 2 then (2 * p0 + p1) / 3
  else (2 * p1 + p0) / 3

/-- The quantized 6-bit green minimum of a block (`compressDXT1G` lines
615-624), starting from 63. -/
def greenMing (rgba : ColorBlock) : ℕ :=
  (List.finRange 16).foldl (fun m i => min m ((rgba i).g.val >>> 2)) 63

/-- The quantized 6-bit green maximum of a block, starting from 0. -/
def greenMaxg (rgba : ColorBlock) : ℕ :=
  (List.finRange 16).foldl (fun m i => max m ((rgba i).g.val >>> 2)) 0

/-- The block holding green endpoints `(g0, g1)` as `compressDXT1G` builds it
(r fields 31, b fields 0; indices not yet written). -/
def greenBlock (g0 g1 : ℕ) : BlockDXT1 := ⟨⟨31, g0, 0⟩, ⟨31, g1, 0⟩, 0⟩

/-- One candidate step of the bounded exhaustive search (lines 641-656):
skip the pair when its trivial lower bound `(maxg-g0)+(g1-ming)` already
exceeds the best error, otherwise evaluate it and keep it if strictly
better.  State is `(besterror, bestg0, bestg1)`. -/
def greenStep (rgba : ColorBlock) (maxg ming : ℕ) (st : ℕ × ℕ × ℕ)
    (g0 g1 : ℕ) : ℕ × ℕ × ℕ :=
  if st.1 < (maxg - g0) + (g1 - ming) then st
  else
    let error := computeGreenError rgba (greenBlock g0 g1)
    if error < st.1 then (error, g0, g1) else st

/-- The double loop of `compressDXT1G` (lines 635-657): branch-and-bound
over all pairs `g0 ∈ (ming+5..maxg)`, `g1 ∈ (ming..g0-5)`, starting from the
error of the bounding pair `(maxg, ming)`. -/
def greenSearch (rgba : ColorBlock) (maxg ming : ℕ) : ℕ × ℕ × ℕ :=
  let init := computeGreenError rgba (greenBlock maxg ming)
  (List.range' (ming + 5) (maxg - (ming + 5))).foldl
    (fun st g0 =>
      (List.range' ming (g0 - 4 - ming)).foldl
        (fun st2 g1 => greenStep rgba maxg ming st2 g0 g1) st)
    (init, maxg, ming)

/-- `compressDXT1G` (line 611): brute-force green-channel compressor.  When
the quantized spread exceeds 4, run the bounded exhaustive `greenSearch`;
otherwise keep `(maxg, ming)`.  Finally assign green indices. -/
def compressDXT1G (rgba : ColorBlock) : BlockDXT1 :=
  let ming := greenMing rgba
  let maxg := greenMaxg rgba
  let block1 :=
    if 4 < maxg - ming then
      greenBlock (greenSearch rgba maxg ming).2.1 (greenSearch rgba maxg ming).2.2
    else greenBlock maxg ming
  ⟨block1.col0, block1.col1,
   computeGreenIndices rgba (evaluatePaletteG block1)⟩

/-- `compressDXT3A` (line 670): 16 independent truncations `a >> 4`; the
result is the vector of 4-bit fields `alpha0..alphaF`. -/
def compressDXT3A (rgba : ColorBlock) : Fin 16 → ℕ :=
  fun i => (rgba i).a.val >>> 4

/-- Modelled from the spec: `AlphaBlockDXT5::evaluatePalette`
(nvimage/BlockDXT.cpp, not under src/).  Spec section 3: "Palette has 8
entries: entries 0,1 are alpha0,alpha1 themselves; entries 2..7 are a linear
6-step interpolation between them". -/
def evaluatePalette (alpha0 alpha1 : ℕ) (p : ℕ) : ℕ :=
  if p = 0 then alpha0
  else if p = 1 then alpha1
  else ((8 - p) * alpha0 + (p - 1) * alpha1) / 7

/-- The inner nearest-of-8 scan of `computeAlphaIndices` (lines 369-381):
start from `besterror = 256*256`, `best = 8`, and scan the 8 palette entries
in ascending order, keeping the first strict improvement.  Returns
`(besterror, best)`. -/
def alphaNearest (alphas : ℕ → ℕ) (alpha : ℕ) : ℕ × ℕ :=
  (List.range 8).foldl (fun st p =>
    let d : ℤ := (alphas p : ℤ) - alpha
    let error := (d * d).toNat
    if error < st.1 then (error, p) else st) (256 * 256, 8)

/-- `computeAlphaIndices` (line 358): evaluate the 8-entry palette, assign
every sample the nearest entry (the C `setIndex` writes; the selected
`best` is proved `< 8`, so the 3-bit field stores it exactly), and return
the total squared error together with the updated block. -/
def computeAlphaIndices (rgba : ColorBlock) (block : AlphaBlockDXT5) :
    ℕ × AlphaBlockDXT5 :=
  let alphas := evaluatePalette block.alpha0 block.alpha1
  ((List.finRange 16).foldl
     (fun totalError i => totalError + (alphaNearest alphas (rgba i).a.val).1) 0,
   ⟨block.alpha0, block.alpha1,
    fun i => (alphaNearest alphas (rgba i).a.val).2⟩)

/-- The regression weight of `optimizeAlpha8` (lines 401-404): indices 0,1
map to alpha = 1,0; an index `k ≥ 2` maps to `(8-k)/7`. -/
def alphaWeight (idx : ℕ) : ℚ :=
  if idx < 2 then 1 - (idx : ℚ) else (8 - (idx : ℚ)) / 7

/-- The regression accumulators of `optimizeAlpha8` (lines 393-413):
(alpha2_sum, beta2_sum, alphabeta_sum, alphax_sum, betax_sum). -/
def alphaSums (rgba : ColorBlock) (block : AlphaBlockDXT5) :
    ℚ × ℚ × ℚ × ℚ × ℚ :=
  (List.finRange 16).foldl (fun s i =>
    let alpha := alphaWeight (block.index i)
    let beta := 1 - alpha
    (s.1 + alpha * alpha, s.2.1 + beta * beta, s.2.2.1 + alpha * beta,
     s.2.2.2.1 + alpha * ((rgba i).a.val : ℚ),
     s.2.2.2.2 + beta * ((rgba i).a.val : ℚ))) (0, 0, 0, 0, 0)

/-- The 2x2 normal-equation determinant of `optimizeAlpha8` (line 415):
`alpha2_sum * beta2_sum - alphabeta_sum * alphabeta_sum`. -/
def optDenomAlpha (rgba : ColorBlock) (block : AlphaBlockDXT5) : ℚ :=
  let s := alphaSums rgba block
  s.1 * s.2.1 - s.2.2.1 * s.2.2.1

/-- `optimizeAlpha8` (line 391): least-squares endpoint refinement for the
8-step alpha ramp.  Unlike `optimizeEndPoints4` there is no degenerate-
determinant guard: `factor = 1/denom` is computed unconditionally (in C a
zero denominator makes this a float division by zero producing inf/NaN; over
`ℚ` division by zero yields 0 — either way the endpoints are recomputed, not
left unchanged).  Afterwards the canonical order alpha0 ≥ alpha1 is
restored: on swap the indices are remapped 0↔1, k↔9-k; on equality every
index collapses to 0. -/
def optimizeAlpha8 (rgba : ColorBlock) (block : AlphaBlockDXT5) :
    AlphaBlockDXT5 :=
  let s := alphaSums rgba block
  let factor := 1 / (s.1 * s.2.1 - s.2.2.1 * s.2.2.1)
  let a := (s.2.2.2.1 * s.2.1 - s.2.2.2.2 * s.2.2.1) * factor
  let b := (s.2.2.2.2 * s.1 - s.2.2.2.1 * s.2.2.1) * factor
  let alpha0 := toUint (min (max a 0) 255)
  let alpha1 := toUint (min (max b 0) 255)
  if alpha0 < alpha1 then
    ⟨alpha1, alpha0, fun i =>
      let idx := block.index i
      if idx < 2 then 1 - idx else 9 - idx⟩
  else if alpha0 = alpha1 then ⟨alpha0, alpha1, fun _ => 0⟩
  else ⟨alpha0, alpha1, block.index⟩

/-- `sameIndices` (line 496): the C compares the two u64 words with the low
16 bits (the endpoint bytes) masked off, i.e. exactly the 16 3-bit index
fields. -/
def sameIndices (block0 block1 : AlphaBlockDXT5) : Bool :=
  (List.finRange 16).all (fun i => block0.index i == block1.index i)

/-- The min/max alpha loop of `compressDXT5A` (lines 700-709): one pass
computing `(alpha0, alpha1) = (max, min)` from `(0, 255)`. -/
def dxt5aMinMax (rgba : ColorBlock) : ℕ × ℕ :=
  (List.finRange 16).foldl
    (fun st i => (max st.1 (rgba i).a.val, min st.2 (rgba i).a.val)) (0, 255)

/-- The initial alpha block of `compressDXT5A` (lines 711-713): the min/max
endpoints nudged inward by 1/34 of their range.  (The C block's index bits
are uninitialized at this point and are immediately overwritten by
`computeAlphaIndices`; the model uses 0.) -/
def dxt5aInit (rgba : ColorBlock) : AlphaBlockDXT5 :=
  let alpha0 := (dxt5aMinMax rgba).1
  let alpha1 := (dxt5aMinMax rgba).2
  ⟨alpha0 - (alpha0 - alpha1) / 34, alpha1 + (alpha0 - alpha1) / 34,
   fun _ => 0⟩

/-- One iteration of the convergence loop of `compressDXT5A` (lines
720-721): refine the endpoints, then recompute the assignment and its
error. -/
def dxt5aStep (rgba : ColorBlock) (block : AlphaBlockDXT5) :
    ℕ × AlphaBlockDXT5 :=
  computeAlphaIndices rgba (optimizeAlpha8 rgba block)


/-- The convergence loop of `compressDXT5A` (lines 718-736), stated for an
arbitrary iteration `step` (instantiated below with `dxt5aStep rgba`):
refine-and-reassign, stop keeping the previous best when the new error is
not strictly better, stop keeping the new block when its assignment equals
the previous best, otherwise accept and continue.  Besides the final block
the model returns the list of errors accepted as best, which drives the
termination measure: every accepted error is strictly below the previous
best. -/
def bestLoop (step : AlphaBlockDXT5 → ℕ × AlphaBlockDXT5)
    (block bestblock : AlphaBlockDXT5) (besterror : ℕ) :
    AlphaBlockDXT5 × List ℕ :=
  let r := step block
  if h : besterror ≤ r.1 then (bestblock, [])
  else if sameIndices r.2 bestblock then (r.2, [r.1])
  else
    let t := bestLoop step r.2 r.2 r.1
    (t.1, r.1 :: t.2)
termination_by besterror
decreasing_by exact Nat.lt_of_not_le h

/-- The convergence loop of `compressDXT5A`, with the concrete iteration. -/
def dxt5aLoop (rgba : ColorBlock) (block bestblock : AlphaBlockDXT5)
    (besterror : ℕ) : AlphaBlockDXT5 × List ℕ :=
  bestLoop (dxt5aStep rgba) block bestblock besterror

/-- `compressDXT5A` (line 698): initial endpoints and assignment, then the
convergence loop; the best block seen is the result. -/
def compressDXT5A (rgba : ColorBlock) : AlphaBlockDXT5 :=
  let r := computeAlphaIndices rgba (dxt5aInit rgba)
  (dxt5aLoop rgba r.2 r.2 r.1).1

/-- The full sequence of errors accepted as best by `compressDXT5A`,
starting with the initial assignment's error. -/
def compressDXT5ATrace (rgba : ColorBlock) : List ℕ :=
  let r := computeAlphaIndices rgba (dxt5aInit rgba)
  r.1 :: (dxt5aLoop rgba r.2 r.2 r.1).2

/-- `compressDXT3` (line 691): independent color and alpha sub-blocks. -/
def compressDXT3 (rgba : ColorBlock) : BlockDXT1 × (Fin 16 → ℕ) :=
  (compressDXT1Block rgba, compressDXT3A rgba)

/-- `compressDXT5` (line 742): independent color and alpha sub-blocks. -/
def compressDXT5 (rgba : ColorBlock) : BlockDXT1 × AlphaBlockDXT5 :=
  (compressDXT1Block rgba, compressDXT5A rgba)

/-! ### Concrete inputs used by witnesses and counterexamples -/

/-- A fully transparent test block: every sample is (0,0,0,0). -/
def transparentBlock : ColorBlock := fun _ => ⟨0, 0, 0, 0⟩

/-- A trivial lookup table used to instantiate the table-parametric
uniform-color encoder in witnesses. -/
def zeroTable : OMatchTable := fun _ => (0, 0)

/-- A block of all-zero color vectors. -/
def zeroVecBlock : Fin 16 → Vec3 := fun _ => ⟨0, 0, 0⟩

/-- A DXT1 block whose index word is all zeros (every sample on index 0). -/
def zeroDxtBlock : BlockDXT1 := ⟨⟨0, 0, 0⟩, ⟨0, 0, 0⟩, 0⟩

/-- A block whose 16 samples all have alpha 128. -/
def alpha128Block : ColorBlock := fun _ => ⟨0, 0, 0, 128⟩

/-- An alpha block with equal endpoints 128 and all indices 0: every sample
shares one index, so the regression determinant is zero. -/
def degenerateAlphaBlock : AlphaBlockDXT5 := ⟨128, 128, fun _ => 0⟩

/-- The block of the spec's green-search test: fifteen samples with green 0
and one with green 252 (quantized spread 63 > 4). -/
def greenTestBlock : ColorBlock := fun i =>
  if i.val = 15 then ⟨0, 252, 0, 255⟩ else ⟨0, 0, 0, 255⟩

/-- A uniform opaque block (quantized green spread 0). -/
def uniformBlock : ColorBlock := fun _ => ⟨120, 200, 50, 255⟩

/-- The index remap applied on endpoint swap by `optimizeAlpha8`
(lines 430-432): 0↔1, and k↔9-k for k ≥ 2. -/
def alphaRemap (k : ℕ) : ℕ := if k < 2 then 1 - k else 9 - k

/-! ### Helper lemmas -/

theorem foldl_inv {α β : Type} (P : α → Prop) (f : α → β → α)
    (l : List β) (a : α) (h0 : P a)
    (hstep : ∀ b x, x ∈ l → P b → P (f b x)) : P (l.foldl f a) := by
  induction l generalizing a with
  | nil => exact h0
  | cons x xs ih =>
      exact ih (f a x) (hstep a x (List.mem_cons_self x xs) h0)
        (fun b y hy => hstep b y (List.mem_cons_of_mem x hy))

theorem pack565_eq (r g b : ℕ) (hr : r ≤ 31) (hg : g ≤ 63) (hb : b ≤ 31) :
    (r <<< 11) ||| (g <<< 5) ||| b = r * 2048 + g * 32 + b := by
  have h1 : g <<< 5 = 2 ^ 5 * g := by rw [Nat.shiftLeft_eq]; ring
  have h2 : r <<< 11 = 2 ^ 11 * r := by rw [Nat.shiftLeft_eq]; ring
  have e1 : (g <<< 5) ||| b = g * 32 + b := by
    rw [h1, ← Nat.mul_add_lt_is_or (show b < 2 ^ 5 by omega) g]; ring
  rw [Nat.lor_assoc, e1, h2,
    ← Nat.mul_add_lt_is_or (show g * 32 + b < 2 ^ 11 by omega) r]
  ring

theorem toUint_lt (f : ℚ) (n : ℕ) (hn : 0 < n) (h : f < n) : toUint f < n := by
  unfold toUint
  have hf : ⌊f⌋ < (n : ℤ) := Int.floor_lt.mpr (by exact_mod_cast h)
  omega

theorem qclamp_le (f lo hi : ℚ) : qclamp f lo hi ≤ hi := min_le_right _ _

theorem qclamp_nonneg (f hi : ℚ) (hhi : 0 ≤ hi) : 0 ≤ qclamp f 0 hi :=
  le_min (le_max_right f 0) hhi

theorem quant_le (f : ℚ) (hi : ℕ) : toUint (qclamp f 0 hi + 1/2) ≤ hi := by
  apply Nat.lt_succ_iff.mp
  apply toUint_lt _ _ (Nat.succ_pos hi)
  have := qclamp_le f 0 (hi : ℚ)
  push_cast
  linarith

theorem quant_cast (f : ℚ) (hi : ℕ) :
    ((toUint (qclamp f 0 hi + 1/2) : ℕ) : ℚ) = (⌊qclamp f 0 hi + 1/2⌋ : ℚ) := by
  have h0 : (0:ℚ) ≤ qclamp f 0 hi := qclamp_nonneg f hi (by positivity)
  have hfl : (0:ℤ) ≤ ⌊qclamp f 0 hi + 1/2⌋ := Int.floor_nonneg.mpr (by linarith)
  unfold toUint
  exact_mod_cast congrArg (Int.cast : ℤ → ℚ) (Int.toNat_of_nonneg hfl)

theorem quant_near (f : ℚ) (hi : ℕ) :
    |((toUint (qclamp f 0 hi + 1/2) : ℕ) : ℚ) - qclamp f 0 hi| ≤ 1/2 := by
  rw [quant_cast]
  have h1 : (⌊qclamp f 0 hi + 1/2⌋ : ℚ) ≤ qclamp f 0 hi + 1/2 := Int.floor_le _
  have h2 : qclamp f 0 hi + 1/2 < ⌊qclamp f 0 hi + 1/2⌋ + 1 :=
    Int.lt_floor_add_one _
  rw [abs_le]
  constructor <;> linarith

theorem roundAndExpand_fst (v : Vec3) :
    (roundAndExpand v).1 =
      toUint (qclamp (v.x * (31/255)) 0 31 + 1/2) * 2048 +
      toUint (qclamp (v.y * (63/255)) 0 63 + 1/2) * 32 +
      toUint (qclamp (v.z * (31/255)) 0 31 + 1/2) := by
  simp only [roundAndExpand]
  exact pack565_eq _ _ _ (quant_le _ 31) (quant_le _ 63) (quant_le _ 31)

theorem roundAndExpand_fst_lt (v : Vec3) : (roundAndExpand v).1 < 65536 := by
  rw [roundAndExpand_fst]
  have h1 : toUint (qclamp (v.x * (31/255)) 0 31 + 1/2) ≤ 31 := quant_le _ 31
  have h2 : toUint (qclamp (v.y * (63/255)) 0 63 + 1/2) ≤ 63 := quant_le _ 63
  have h3 : toUint (qclamp (v.z * (31/255)) 0 31 + 1/2) ≤ 31 := quant_le _ 31
  omega

theorem u_ofU (w : ℕ) (h : w < 65536) : (Color16.ofU w).u = w := by
  simp only [Color16.ofU, Color16.u]
  omega

/-! ### Endpoint ordering (claim C1) -/

theorem optimizeEndPoints4_ord (block : Fin 16 → Vec3) (dxt : BlockDXT1)
    (h : dxt.col1.u ≤ dxt.col0.u) :
    (optimizeEndPoints4 block dxt).col1.u ≤
      (optimizeEndPoints4 block dxt).col0.u := by
  simp only [optimizeEndPoints4]
  split
  · exact h
  · split
    · next hlt =>
        simp only []
        rw [u_ofU _ (roundAndExpand_fst_lt _), u_ofU _ (roundAndExpand_fst_lt _)]
        omega
    · next hge =>
        simp only []
        rw [u_ofU _ (roundAndExpand_fst_lt _), u_ofU _ (roundAndExpand_fst_lt _)]
        omega

theorem compressDXT1Block_ord (rgba : ColorBlock) :
    (compressDXT1Block rgba).col1.u ≤ (compressDXT1Block rgba).col0.u := by
  simp only [compressDXT1Block]
  apply optimizeEndPoints4_ord
  split
  · next hlt =>
      simp only []
      rw [u_ofU _ (roundAndExpand_fst_lt _), u_ofU _ (roundAndExpand_fst_lt _)]
      omega
  · next hge =>
      simp only []
      rw [u_ofU _ (roundAndExpand_fst_lt _), u_ofU _ (roundAndExpand_fst_lt _)]
      omega

theorem compressDXT1Single_ord (o5 o6 : OMatchTable) (c : Color32) :
    (compressDXT1Single o5 o6 c).col1.u ≤ (compressDXT1Single o5 o6 c).col0.u := by
  simp only [compressDXT1Single]
  split
  · next hlt => simp only []; omega
  · next hge => simp only []; omega

theorem compressDXT1aBlock_punch_ord (rgba : ColorBlock)
    (h : hasAlpha rgba = true) :
    (compressDXT1aBlock rgba).col0.u ≤ (compressDXT1aBlock rgba).col1.u := by
  rw [compressDXT1aBlock, h, if_neg (show ¬(true = false) by simp)]
  dsimp only
  split
  · next hlt =>
      simp only []
      rw [u_ofU _ (roundAndExpand_fst_lt _), u_ofU _ (roundAndExpand_fst_lt _)]
      omega
  · next hge =>
      simp only []
      rw [u_ofU _ (roundAndExpand_fst_lt _), u_ofU _ (roundAndExpand_fst_lt _)]
      omega

/-! ### Claim C1 -/

/-- C1: every block produced by the 4-color paths — `compressDXT1` over a
`ColorBlock` (which ends with the least-squares refinement) and the
uniform-color `compressDXT1` over a single `Color32` — satisfies
`packed(col0) ≥ packed(col1)`; the punch-through paths of `compressDXT1a`
(a block with sub-threshold alpha, resp. a fully transparent single color)
satisfy the documented exception `packed(col0) ≤ packed(col1)`. -/
theorem claim_C1_endpoint_order :
    (∀ rgba : ColorBlock,
      (compressDXT1Block rgba).col1.u ≤ (compressDXT1Block rgba).col0.u) ∧
    (∀ (o5 o6 : OMatchTable) (c : Color32),
      (compressDXT1Single o5 o6 c).col1.u ≤
        (compressDXT1Single o5 o6 c).col0.u) ∧
    (∀ rgba : ColorBlock, hasAlpha rgba = true →
      (compressDXT1aBlock rgba).col0.u ≤ (compressDXT1aBlock rgba).col1.u) ∧
    (∀ (o5 o6 : OMatchTable) (c : Color32), c.a.val = 0 →
      (compressDXT1aSingle o5 o6 c).col0.u ≤
        (compressDXT1aSingle o5 o6 c).col1.u) := by
  refine ⟨compressDXT1Block_ord, compressDXT1Single_ord,
    compressDXT1aBlock_punch_ord, ?_⟩
  intro o5 o6 c hc
  simp [compressDXT1aSingle, hc]

/-- Witness for C1: both hypothesis-bearing parts applied to concrete
transparent inputs. -/
theorem claim_C1_endpoint_order_witness :
    (compressDXT1aBlock transparentBlock).col0.u ≤
      (compressDXT1aBlock transparentBlock).col1.u ∧
    (compressDXT1aSingle zeroTable zeroTable ⟨0, 0, 0, 0⟩).col0.u ≤
      (compressDXT1aSingle zeroTable zeroTable ⟨0, 0, 0, 0⟩).col1.u :=
  ⟨claim_C1_endpoint_order.2.2.1 transparentBlock (by decide),
   claim_C1_endpoint_order.2.2.2 zeroTable zeroTable ⟨0, 0, 0, 0⟩ (by decide)⟩

/-! ### Claim C2 -/

/-- C2 (amended): the 4-color refinement `optimizeEndPoints4` leaves the
block unchanged whenever the 2x2 normal-equation determinant is numerically
zero.  (The alpha-ramp refinement `optimizeAlpha8` has no such guard — see
the counterexample.) -/
theorem claim_C2_degenerate_guard (block : Fin 16 → Vec3) (dxt : BlockDXT1)
    (h : equalF (optDenom4 block dxt.indices) 0 = true) :
    optimizeEndPoints4 block dxt = dxt := by
  simp only [optimizeEndPoints4]
  split
  · rfl
  · next hc => exact absurd h hc

attribute [local semireducible] Rat.add Rat.sub Rat.mul Rat.inv in
/-- Witness for C2: a block whose samples all carry index 0 has determinant
exactly 0, and the refinement returns it unchanged. -/
theorem claim_C2_degenerate_guard_witness :
    equalF (optDenom4 zeroVecBlock zeroDxtBlock.indices) 0 = true ∧
    optimizeEndPoints4 zeroVecBlock zeroDxtBlock = zeroDxtBlock :=
  ⟨by decide, claim_C2_degenerate_guard zeroVecBlock zeroDxtBlock (by decide)⟩

attribute [local semireducible] Rat.add Rat.sub Rat.mul Rat.inv in
/-- C2 counterexample: for the alpha-ramp refinement the claim fails — on a
block whose 16 samples all have alpha 128 with all indices 0 the determinant
is exactly 0, yet `optimizeAlpha8` overwrites the endpoints (128 becomes 0)
instead of leaving them unchanged: the C code computes `factor = 1/denom`
unconditionally (a float division by zero). -/
theorem claim_C2_counterexample :
    optDenomAlpha alpha128Block degenerateAlphaBlock = 0 ∧
    (optimizeAlpha8 alpha128Block degenerateAlphaBlock).alpha0 ≠
      degenerateAlphaBlock.alpha0 := by
  constructor
  · decide
  · decide

/-! ### Claim C8 -/

attribute [local semireducible] Rat.add Rat.sub Rat.mul Rat.inv in
/-- C8: `roundAndExpand` packs the three round-to-nearest quantized channels
into one 16-bit 5:6:5 word (R in bits 11..15, G in 5..10, B in 0..4): the
word is below 2^16, extracting its three fields and bit-replicating them
(`(v<<3)|(v>>2)` for 5-bit, `(g<<2)|(g>>4)` for 6-bit) gives exactly the
overwritten working color, each field is within 1/2 of the clamped scaled
channel (round to nearest), and bit replication is not the linear 0-255
rescale (at 5-bit value 3 they differ: 24 vs 25). -/
theorem claim_C8_roundAndExpand (v : Vec3) :
    (roundAndExpand v).1 < 65536 ∧
    (roundAndExpand v).2 =
      ⟨((expand5 ((roundAndExpand v).1 / 2048) : ℕ) : ℚ),
       ((expand6 ((roundAndExpand v).1 / 32 % 64) : ℕ) : ℚ),
       ((expand5 ((roundAndExpand v).1 % 32) : ℕ) : ℚ)⟩ ∧
    |(((roundAndExpand v).1 / 2048 : ℕ) : ℚ) - qclamp (v.x * (31/255)) 0 31| ≤ 1/2 ∧
    |(((roundAndExpand v).1 / 32 % 64 : ℕ) : ℚ) - qclamp (v.y * (63/255)) 0 63| ≤ 1/2 ∧
    |(((roundAndExpand v).1 % 32 : ℕ) : ℚ) - qclamp (v.z * (31/255)) 0 31| ≤ 1/2 ∧
    expand5 3 = 24 ∧ toUint ((3 : ℚ) * (255/31) + 1/2) = 25 := by
  have hfst := roundAndExpand_fst v
  have hr : toUint (qclamp (v.x * (31/255)) 0 31 + 1/2) ≤ 31 := quant_le _ 31
  have hg : toUint (qclamp (v.y * (63/255)) 0 63 + 1/2) ≤ 63 := quant_le _ 63
  have hb : toUint (qclamp (v.z * (31/255)) 0 31 + 1/2) ≤ 31 := quant_le _ 31
  have hdr : (roundAndExpand v).1 / 2048 =
      toUint (qclamp (v.x * (31/255)) 0 31 + 1/2) := by rw [hfst]; omega
  have hdg : (roundAndExpand v).1 / 32 % 64 =
      toUint (qclamp (v.y * (63/255)) 0 63 + 1/2) := by rw [hfst]; omega
  have hdb : (roundAndExpand v).1 % 32 =
      toUint (qclamp (v.z * (31/255)) 0 31 + 1/2) := by rw [hfst]; omega
  refine ⟨by rw [hfst]; omega, ?_, ?_, ?_, ?_, by decide, by decide⟩
  · rw [hdr, hdg, hdb]; rfl
  · rw [hdr]; exact quant_near _ 31
  · rw [hdg]; exact quant_near _ 63
  · rw [hdb]; exact quant_near _ 31

/-! ### Claim C9 -/

/-- C9: every encoder is a deterministic (pure) function of its input block:
encoding the same block twice yields bit-identical output.  Each encoder of
the source file is embedded as a total function, so the equality holds
definitionally. -/
theorem claim_C9_determinism :
    (∀ (o5 o6 : OMatchTable) (c : Color32),
      compressDXT1Single o5 o6 c = compressDXT1Single o5 o6 c) ∧
    (∀ rgba : ColorBlock, compressDXT1Block rgba = compressDXT1Block rgba) ∧
    (∀ (o5 o6 : OMatchTable) (c : Color32),
      compressDXT1aSingle o5 o6 c = compressDXT1aSingle o5 o6 c) ∧
    (∀ rgba : ColorBlock, compressDXT1aBlock rgba = compressDXT1aBlock rgba) ∧
    (∀ rgba : ColorBlock, compressDXT1G rgba = compressDXT1G rgba) ∧
    (∀ rgba : ColorBlock, compressDXT3 rgba = compressDXT3 rgba) ∧
    (∀ rgba : ColorBlock, compressDXT5 rgba = compressDXT5 rgba) :=
  ⟨fun _ _ _ => rfl, fun _ => rfl, fun _ _ _ => rfl, fun _ => rfl,
   fun _ => rfl, fun _ => rfl, fun _ => rfl⟩

/-! ### Claim C5 -/

/-- C5: under the 8-entry ramp palette rule (entries 0,1 are the endpoints,
entries 2..7 the linear 6-step interpolation), swapping the endpoints and
remapping an index by `alphaRemap` (0↔1, k↔9-k for k ≥ 2) represents the same
alpha value. -/
theorem claim_C5_swap_preserves_palette (alpha0 alpha1 : ℕ) (k : Fin 8) :
    evaluatePalette alpha1 alpha0 (alphaRemap k.val) =
      evaluatePalette alpha0 alpha1 k.val := by
  fin_cases k <;> simp [evaluatePalette, alphaRemap] <;> omega

/-! ### Claim C10 -/

theorem finRange16_eq :
    List.finRange 16 =
      [0, 1, 2, 3, 4, 5, 6, 7, 8, 9, 10, 11, 12, 13, 14, 15] := by decide

theorem alphaNearest_spec (alphas : ℕ → ℕ) (alpha : ℕ)
    (hpal : alphas 0 ≤ 255) (ha : alpha ≤ 255) :
    (alphaNearest alphas alpha).2 < 8 ∧ (alphaNearest alphas alpha).1 ≤ 65025 := by
  have hr : List.range 8 = 0 :: [1, 2, 3, 4, 5, 6, 7] := rfl
  rw [alphaNearest, hr, List.foldl_cons]
  have hd2 : (((alphas 0 : ℤ) - alpha) * ((alphas 0 : ℤ) - alpha)).toNat ≤ 65025 := by
    have h1 : (0:ℤ) ≤ 255 - ((alphas 0 : ℤ) - alpha) := by omega
    have h2 : (0:ℤ) ≤ 255 + ((alphas 0 : ℤ) - alpha) := by omega
    have h3 := mul_nonneg h1 h2
    have h4 : ((alphas 0 : ℤ) - alpha) * ((alphas 0 : ℤ) - alpha) ≤ 65025 := by
      nlinarith
    omega
  apply foldl_inv (fun st : ℕ × ℕ => st.2 < 8 ∧ st.1 ≤ 65025)
  · dsimp only
    split
    · exact ⟨by omega, by omega⟩
    · next hcond => exact absurd (by omega) hcond
  · intro st x hx hP
    dsimp only
    split
    · refine ⟨?_, by omega⟩
      have : x < 8 := by
        simp only [List.mem_cons, List.not_mem_nil, or_false] at hx
        omega
      omega
    · exact hP

/-- C10: the nearest-of-8 scan of `computeAlphaIndices` always selects an
index strictly below 8 — the initial best error 256*256 strictly exceeds
every achievable squared difference (at most 255*255, using palette entry 0,
which is the 8-bit `alpha0`) — so the `best < 8` assertion holds and all 16
returned per-sample indices are in 0..7. -/
theorem claim_C10_alpha_index_in_range :
    (∀ (alphas : ℕ → ℕ) (alpha : ℕ), alphas 0 ≤ 255 → alpha ≤ 255 →
      (alphaNearest alphas alpha).2 < 8) ∧
    (∀ (rgba : ColorBlock) (block : AlphaBlockDXT5), block.alpha0 ≤ 255 →
      ∀ i : Fin 16, (computeAlphaIndices rgba block).2.index i < 8) := by
  constructor
  · intro alphas alpha hpal ha
    exact (alphaNearest_spec alphas alpha hpal ha).1
  · intro rgba block h0 i
    have hidx : (computeAlphaIndices rgba block).2.index i =
        (alphaNearest (evaluatePalette block.alpha0 block.alpha1)
          ((rgba i).a.val)).2 := by dsimp only [computeAlphaIndices]
    have hpal : evaluatePalette block.alpha0 block.alpha1 0 ≤ 255 := by
      simpa [evaluatePalette] using h0
    rw [hidx]
    exact (alphaNearest_spec _ _ hpal (Fin.is_le _)).1

/-- Witness for C10: both parts at concrete inputs. -/
theorem claim_C10_alpha_index_in_range_witness :
    (alphaNearest (fun _ => 0) 0).2 < 8 ∧
    (computeAlphaIndices alpha128Block degenerateAlphaBlock).2.index 3 < 8 :=
  ⟨claim_C10_alpha_index_in_range.1 (fun _ => 0) 0 (by decide) (by decide),
   claim_C10_alpha_index_in_range.2 alpha128Block degenerateAlphaBlock
     (by decide) 3⟩

/-! ### Claim C4 -/

theorem computeAlphaIndices_alpha0 (rgba : ColorBlock) (b : AlphaBlockDXT5) :
    (computeAlphaIndices rgba b).2.alpha0 = b.alpha0 := by
  dsimp only [computeAlphaIndices]

theorem computeAlphaIndices_alpha1 (rgba : ColorBlock) (b : AlphaBlockDXT5) :
    (computeAlphaIndices rgba b).2.alpha1 = b.alpha1 := by
  dsimp only [computeAlphaIndices]

theorem optimizeAlpha8_ord (rgba : ColorBlock) (b : AlphaBlockDXT5) :
    (optimizeAlpha8 rgba b).alpha1 ≤ (optimizeAlpha8 rgba b).alpha0 := by
  simp only [optimizeAlpha8]
  split
  next h => dsimp only; omega
  next h =>
    split
    next h2 => dsimp only; omega
    next h2 => dsimp only; omega

theorem optimizeAlpha8_collapse (rgba : ColorBlock) (b : AlphaBlockDXT5)
    (h : (optimizeAlpha8 rgba b).alpha0 = (optimizeAlpha8 rgba b).alpha1)
    (i : Fin 16) : (optimizeAlpha8 rgba b).index i = 0 := by
  revert h
  simp only [optimizeAlpha8]
  split
  next hlt => intro h; dsimp only at h; omega
  next hge =>
    split
    next heq => intro h; dsimp only
    next hne => intro h; dsimp only at h; omega

theorem dxt5aMinMax_spec (rgba : ColorBlock) :
    (dxt5aMinMax rgba).2 ≤ (dxt5aMinMax rgba).1 ∧
    (dxt5aMinMax rgba).1 ≤ 255 ∧ (dxt5aMinMax rgba).2 ≤ 255 := by
  rw [dxt5aMinMax, finRange16_eq, List.foldl_cons]
  apply foldl_inv (fun st : ℕ × ℕ => st.2 ≤ st.1 ∧ st.1 ≤ 255 ∧ st.2 ≤ 255)
  · dsimp only
    have := Fin.is_le (rgba 0).a
    omega
  · intro st x _ hP
    dsimp only
    have := Fin.is_le (rgba x).a
    omega

theorem dxt5aInit_spec (rgba : ColorBlock) :
    (dxt5aInit rgba).alpha1 ≤ (dxt5aInit rgba).alpha0 ∧
    (dxt5aInit rgba).alpha0 ≤ 255 := by
  have h := dxt5aMinMax_spec rgba
  dsimp only [dxt5aInit]
  omega

theorem dxt5aStep_ord (rgba : ColorBlock) (b : AlphaBlockDXT5) :
    (dxt5aStep rgba b).2.alpha1 ≤ (dxt5aStep rgba b).2.alpha0 := by
  dsimp only [dxt5aStep]
  rw [computeAlphaIndices_alpha0, computeAlphaIndices_alpha1]
  exact optimizeAlpha8_ord rgba b

theorem bestLoop_ord (step : AlphaBlockDXT5 → ℕ × AlphaBlockDXT5)
    (hstep : ∀ b, (step b).2.alpha1 ≤ (step b).2.alpha0) :
    ∀ (e : ℕ) (block best : AlphaBlockDXT5), best.alpha1 ≤ best.alpha0 →
      (bestLoop step block best e).1.alpha1 ≤
        (bestLoop step block best e).1.alpha0 := by
  intro e
  induction e using Nat.strong_induction_on with
  | _ e ih =>
    intro block best hbest
    rw [bestLoop.eq_def]
    dsimp only
    split
    · exact hbest
    · split
      · exact hstep block
      · next hgt _ =>
        apply ih _ (by omega)
        exact hstep block

/-- C4: the alpha block produced by `compressDXT5A` always satisfies
alpha0 ≥ alpha1 (the initial inward-nudged min/max block is ordered and
every refined candidate is re-normalized by `optimizeAlpha8`), and whenever
the swap-normalization of `optimizeAlpha8` leaves alpha0 = alpha1, every
sample's index is forced to 0. -/
theorem claim_C4_ramp_order :
    (∀ rgba : ColorBlock,
      (compressDXT5A rgba).alpha1 ≤ (compressDXT5A rgba).alpha0) ∧
    (∀ (rgba : ColorBlock) (b : AlphaBlockDXT5),
      (optimizeAlpha8 rgba b).alpha0 = (optimizeAlpha8 rgba b).alpha1 →
      ∀ i : Fin 16, (optimizeAlpha8 rgba b).index i = 0) := by
  constructor
  · intro rgba
    dsimp only [compressDXT5A, dxt5aLoop]
    apply bestLoop_ord (dxt5aStep rgba) (dxt5aStep_ord rgba)
    rw [computeAlphaIndices_alpha0, computeAlphaIndices_alpha1]
    exact (dxt5aInit_spec rgba).1
  · exact optimizeAlpha8_collapse

attribute [local semireducible] Rat.add Rat.sub Rat.mul Rat.inv in
/-- Witness for C4: on the all-128-alpha block with all indices 0 the
refinement collapses to equal endpoints, and every index is forced to 0. -/
theorem claim_C4_ramp_order_witness :
    (optimizeAlpha8 alpha128Block degenerateAlphaBlock).index 5 = 0 :=
  claim_C4_ramp_order.2 alpha128Block degenerateAlphaBlock (by decide) 5

/-! ### Claim C3 -/

theorem bestLoop_trace (step : AlphaBlockDXT5 → ℕ × AlphaBlockDXT5) :
    ∀ (e : ℕ) (block best : AlphaBlockDXT5),
      List.Chain' (fun a b => b < a) (e :: (bestLoop step block best e).2) ∧
      (bestLoop step block best e).2.length ≤ e := by
  intro e
  induction e using Nat.strong_induction_on with
  | _ e ih =>
    intro block best
    rw [bestLoop.eq_def]
    dsimp only
    split
    next h => exact ⟨List.chain'_singleton e, by simp⟩
    next h =>
      split
      · refine ⟨List.chain'_cons.mpr ⟨by omega, List.chain'_singleton _⟩, ?_⟩
        dsimp only [List.length_cons, List.length_nil]
        omega
      · have hrec := ih (step block).1 (by omega) (step block).2 (step block).2
        refine ⟨List.chain'_cons.mpr ⟨by omega, hrec.1⟩, ?_⟩
        dsimp only [List.length_cons]
        omega

theorem foldl_add_le {α : Type} (f : α → ℕ) (k : ℕ) :
    ∀ (l : List α) (acc : ℕ), (∀ x ∈ l, f x ≤ k) →
      l.foldl (fun t x => t + f x) acc ≤ acc + l.length * k := by
  intro l
  induction l with
  | nil => intro acc _; simp
  | cons x xs ih =>
    intro acc hb
    simp only [List.foldl_cons, List.length_cons]
    have h1 := ih (acc + f x) (fun y hy => hb y (List.mem_cons_of_mem x hy))
    have h2 := hb x (List.mem_cons_self x xs)
    have h3 : (xs.length + 1) * k = xs.length * k + k := by ring
    omega

theorem computeAlphaIndices_err_le (rgba : ColorBlock) (b : AlphaBlockDXT5)
    (h0 : b.alpha0 ≤ 255) : (computeAlphaIndices rgba b).1 ≤ 1040400 := by
  have hfst : (computeAlphaIndices rgba b).1 =
      (List.finRange 16).foldl
        (fun t i => t + (alphaNearest (evaluatePalette b.alpha0 b.alpha1)
          (rgba i).a.val).1) 0 := by
    dsimp only [computeAlphaIndices]
  rw [hfst]
  have hpal : evaluatePalette b.alpha0 b.alpha1 0 ≤ 255 := by
    simpa [evaluatePalette] using h0
  have hb := foldl_add_le
    (fun i : Fin 16 =>
      (alphaNearest (evaluatePalette b.alpha0 b.alpha1) (rgba i).a.val).1)
    65025 (List.finRange 16) 0
    (fun x _ => (alphaNearest_spec _ _ hpal (Fin.is_le _)).2)
  simpa using hb

/-- C3: the convergence loop of `compressDXT5A` terminates within a bounded
number of steps — the trace of errors accepted as best (starting with the
initial assignment error) has length at most 16*255^2 + 1 — and that error
sequence is non-increasing (in fact strictly decreasing): the loop stops as
soon as the new error is not strictly better than the best seen, or the new
assignment equals the previous best. -/
theorem claim_C3_alpha_loop_bounded (rgba : ColorBlock) :
    List.Chain' (fun a b => b ≤ a) (compressDXT5ATrace rgba) ∧
    (compressDXT5ATrace rgba).length ≤ 16 * 255 ^ 2 + 1 := by
  have htr : compressDXT5ATrace rgba =
      (computeAlphaIndices rgba (dxt5aInit rgba)).1 ::
        (bestLoop (dxt5aStep rgba)
          (computeAlphaIndices rgba (dxt5aInit rgba)).2
          (computeAlphaIndices rgba (dxt5aInit rgba)).2
          (computeAlphaIndices rgba (dxt5aInit rgba)).1).2 := by
    dsimp only [compressDXT5ATrace, dxt5aLoop]
  have hloop := bestLoop_trace (dxt5aStep rgba)
    (computeAlphaIndices rgba (dxt5aInit rgba)).1
    (computeAlphaIndices rgba (dxt5aInit rgba)).2
    (computeAlphaIndices rgba (dxt5aInit rgba)).2
  rw [htr]
  constructor
  · exact hloop.1.imp (fun _ _ hlt => le_of_lt hlt)
  · have h2 := hloop.2
    have h3 := computeAlphaIndices_err_le rgba (dxt5aInit rgba)
      (dxt5aInit_spec rgba).2
    have h4 : 16 * 255 ^ 2 + 1 = 1040401 := by norm_num
    dsimp only [List.length_cons]
    omega

/-! ### Claim C6 -/

theorem computeGreenError_congr (rgba : ColorBlock) (b b2 : BlockDXT1)
    (h0 : b.col0.g = b2.col0.g) (h1 : b.col1.g = b2.col1.g) :
    computeGreenError rgba b = computeGreenError rgba b2 := by
  simp only [computeGreenError, h0, h1]

theorem greenStep_inv (rgba : ColorBlock) (maxg ming E0 : ℕ)
    (st : ℕ × ℕ × ℕ) (g0 g1 : ℕ)
    (h : computeGreenError rgba (greenBlock st.2.1 st.2.2) = st.1 ∧ st.1 ≤ E0) :
    computeGreenError rgba
        (greenBlock (greenStep rgba maxg ming st g0 g1).2.1
          (greenStep rgba maxg ming st g0 g1).2.2) =
      (greenStep rgba maxg ming st g0 g1).1 ∧
    (greenStep rgba maxg ming st g0 g1).1 ≤ E0 := by
  dsimp only [greenStep]
  split
  · exact h
  · split
    next hlt => exact ⟨rfl, by omega⟩
    next hge => exact h

theorem greenSearch_le (rgba : ColorBlock) (maxg ming : ℕ) :
    computeGreenError rgba
        (greenBlock (greenSearch rgba maxg ming).2.1
          (greenSearch rgba maxg ming).2.2) =
      (greenSearch rgba maxg ming).1 ∧
    (greenSearch rgba maxg ming).1 ≤
      computeGreenError rgba (greenBlock maxg ming) := by
  dsimp only [greenSearch]
  apply foldl_inv (fun st : ℕ × ℕ × ℕ =>
    computeGreenError rgba (greenBlock st.2.1 st.2.2) = st.1 ∧
      st.1 ≤ computeGreenError rgba (greenBlock maxg ming))
  · exact ⟨rfl, le_rfl⟩
  · intro st g0 _ hP
    apply foldl_inv (fun st : ℕ × ℕ × ℕ =>
      computeGreenError rgba (greenBlock st.2.1 st.2.2) = st.1 ∧
        st.1 ≤ computeGreenError rgba (greenBlock maxg ming)) _ _ _ hP
    intro st2 g1 _ hP2
    exact greenStep_inv rgba maxg ming _ st2 g0 g1 hP2

/-- C6: when the quantized 6-bit green spread exceeds 4, the bounded
exhaustive search of `compressDXT1G` returns endpoints whose total green
palette error is at most the error of simply using the bounding pair
(maxg, ming); when the spread is at most 4 the bounding values are accepted
directly as the endpoints, without searching. -/
theorem claim_C6_green_search (rgba : ColorBlock) :
    (4 < greenMaxg rgba - greenMing rgba →
      computeGreenError rgba (compressDXT1G rgba) ≤
        computeGreenError rgba
          (greenBlock (greenMaxg rgba) (greenMing rgba))) ∧
    (greenMaxg rgba - greenMing rgba ≤ 4 →
      (compressDXT1G rgba).col0.g = greenMaxg rgba ∧
      (compressDXT1G rgba).col1.g = greenMing rgba) := by
  constructor
  · intro hspread
    have hs := greenSearch_le rgba (greenMaxg rgba) (greenMing rgba)
    have hfinal : computeGreenError rgba (compressDXT1G rgba) =
        computeGreenError rgba
          (greenBlock (greenSearch rgba (greenMaxg rgba) (greenMing rgba)).2.1
            (greenSearch rgba (greenMaxg rgba) (greenMing rgba)).2.2) := by
      dsimp only [compressDXT1G]
      rw [if_pos hspread]
      exact computeGreenError_congr rgba _ _ rfl rfl
    rw [hfinal, hs.1]
    exact hs.2
  · intro hle
    dsimp only [compressDXT1G]
    rw [if_neg (by omega)]
    exact ⟨rfl, rfl⟩

/-- Witness for C6: the spec's {0,...,0,252} green block exercises the
search branch, a uniform block the small-spread branch. -/
theorem claim_C6_green_search_witness :
    (computeGreenError greenTestBlock (compressDXT1G greenTestBlock) ≤
      computeGreenError greenTestBlock
        (greenBlock (greenMaxg greenTestBlock) (greenMing greenTestBlock))) ∧
    ((compressDXT1G uniformBlock).col0.g = greenMaxg uniformBlock ∧
      (compressDXT1G uniformBlock).col1.g = greenMing uniformBlock) :=
  ⟨(claim_C6_green_search greenTestBlock).1 (by decide),
   (claim_C6_green_search uniformBlock).2 (by decide)⟩

/-! ### Claim C7 -/

theorem hasAlpha_of_transparent (rgba : ColorBlock)
    (h : ∀ i, (rgba i).a.val = 0) : hasAlpha rgba = true := by
  simp only [hasAlpha, decide_eq_true_eq]
  exact ⟨0, by rw [h 0]; omega⟩

theorem computeIndices3_transparent (rgba : ColorBlock) (mx mn : Vec3)
    (h : ∀ i, (rgba i).a.val = 0) :
    computeIndices3 rgba mx mn = 0xFFFFFFFF := by
  simp only [computeIndices3, h]
  norm_num
  decide

/-- C7 (amended): on a block whose 16 samples all have alpha 0, the
punch-through encoder `compressDXT1a` over a `ColorBlock` yields the all-1s
index word (every sample is forced to the transparent index 3 regardless of
color distance); the single-`Color32` overload yields the all-1s index word
and zero-valued packed endpoints.  (The `ColorBlock` overload's endpoints
come from the degenerate bounding box and are in general not zero — see the
counterexample.) -/
theorem claim_C7_transparent_block :
    (∀ rgba : ColorBlock, (∀ i, (rgba i).a.val = 0) →
      (compressDXT1aBlock rgba).indices = 0xFFFFFFFF) ∧
    (∀ (o5 o6 : OMatchTable) (c : Color32), c.a.val = 0 →
      (compressDXT1aSingle o5 o6 c).col0.u = 0 ∧
      (compressDXT1aSingle o5 o6 c).col1.u = 0 ∧
      (compressDXT1aSingle o5 o6 c).indices = 0xFFFFFFFF) := by
  constructor
  · intro rgba h
    rw [compressDXT1aBlock, hasAlpha_of_transparent rgba h,
      if_neg (show ¬(true = false) by simp)]
    dsimp only
    split
    · exact computeIndices3_transparent rgba _ _ h
    · exact computeIndices3_transparent rgba _ _ h
  · intro o5 o6 c hc
    rw [compressDXT1aSingle, if_pos hc]
    exact ⟨rfl, rfl, rfl⟩

attribute [local semireducible] Rat.add Rat.sub Rat.mul Rat.inv in
/-- Witness for C7: both parts at fully transparent concrete inputs. -/
theorem claim_C7_transparent_block_witness :
    (compressDXT1aBlock transparentBlock).indices = 0xFFFFFFFF ∧
    ((compressDXT1aSingle zeroTable zeroTable ⟨7, 7, 7, 0⟩).col0.u = 0 ∧
     (compressDXT1aSingle zeroTable zeroTable ⟨7, 7, 7, 0⟩).col1.u = 0 ∧
     (compressDXT1aSingle zeroTable zeroTable ⟨7, 7, 7, 0⟩).indices = 0xFFFFFFFF) :=
  ⟨claim_C7_transparent_block.1 transparentBlock (by decide),
   claim_C7_transparent_block.2 zeroTable zeroTable ⟨7, 7, 7, 0⟩ (by decide)⟩

attribute [local semireducible] Rat.add Rat.sub Rat.mul Rat.inv in
/-- C7 counterexample: the original claim also asserts zero-valued packed
endpoints for the `ColorBlock` overload; on the all-transparent block the
extracted sample list is empty, the bounding box degenerates to
max = (0,0,0) < min = (255,255,255), the inset/quantization pipeline turns
this into the nonzero packed words 4226 and 61309, and after the
punch-through reversal `col0.u = 4226 ≠ 0` (the index word is still all
1s). -/
theorem claim_C7_counterexample :
    (compressDXT1aBlock transparentBlock).indices = 0xFFFFFFFF ∧
    (compressDXT1aBlock transparentBlock).col0.u = 4226 ∧
    (compressDXT1aBlock transparentBlock).col1.u = 61309 := by
  refine ⟨by decide, by decide, by decide⟩
